import Mathlib

/-!
# Verification of the alertmanager aggregation engine

A shallow embedding of `manager/aggregator.go`: the per-fingerprint
aggregation state machine (`Ingest`, `Tidy`, `SendNotification`), the
aggregator's batch processing (`aggregate`), rule replacement
(`replaceRules`), and a step function for the dispatch loop.

Times (`time.Time`, `time.Duration`) are modelled as `Int`; the Go map
`map[uint64]*AggregationInstance` is modelled as an association list with
`Nat` keys; pointer-typed fields are modelled as values.  The mutation of
an `AggregationInstance` through a pointer held in the map is modelled by
storing the updated instance back under its fingerprint key.
-/

set_option autoImplicit false

namespace Alertmanager

/-- Modelled from the spec: the event record is not under `src/`; the spec
describes it as an immutable record of identity attributes (a key/value set)
plus a creation timestamp. -/
structure Event where
  Attributes : List (String × String)
  CreatedAt : Int
  deriving DecidableEq, Repr

/-- Modelled from the spec: the fingerprint function is not under `src/`;
the spec describes it as a deterministic 64-bit hash of an event's identity
attributes.  A simple deterministic polynomial hash reduced mod `2^64`. -/
def strFold (h : Nat) (s : String) : Nat :=
  s.toList.foldl (fun acc c => (acc * 31 + c.toNat) % (2 ^ 64)) h

/-- Modelled from the spec: deterministic derivation of the fingerprint from
the identity attributes alone. -/
def Event.Fingerprint (e : Event) : Nat :=
  e.Attributes.foldl (fun acc p => strFold (strFold (acc + 1) p.1) p.2) 7

/-- Modelled from the spec: a single attribute filter; the filter type is not
under `src/`.  The spec only requires a pure predicate over the rule's filter
set and the event's attributes. -/
structure Filter where
  Name : String
  Value : String
  deriving DecidableEq, Repr

/-- Modelled from the spec: a rule's filter set. -/
abbrev Filters := List Filter

/-- Modelled from the spec: `Filters.Handles` holds when every filter is
satisfied by some attribute of the event. -/
def Filters.Handles (f : Filters) (e : Event) : Bool :=
  f.all fun fl => e.Attributes.any fun p => p.1 = fl.Name && p.2 = fl.Value

/-- Dispatch state of an aggregation instance (`aggDispatchState`). -/
inductive aggDispatchState where
  | aggUnsent
  | aggSent
  deriving DecidableEq, Repr

export aggDispatchState (aggUnsent aggSent)

/-- `AggregationRule`: a filter set plus a repeat interval. -/
structure AggregationRule where
  Filters : Filters
  RepeatRate : Int
  deriving DecidableEq, Repr

/-- `func (r *AggregationRule) Handles(e *Event) bool`. -/
def AggregationRule.Handles (r : AggregationRule) (e : Event) : Bool :=
  r.Filters.Handles e

/-- `AggregationInstance`: owning rule, accumulated events, expiry field and
dispatch state.  The Go `Rule` field is a pointer; it is modelled by value. -/
structure AggregationInstance where
  Rule : AggregationRule
  Events : List Event
  EndsAt : Int
  state : aggDispatchState
  deriving DecidableEq, Repr

/-- `func (r *AggregationInstance) Ingest(e *Event)`: append the event. -/
def AggregationInstance.Ingest (r : AggregationInstance) (e : Event) :
    AggregationInstance :=
  { r with Events := r.Events ++ [e] }

/-- `func (r *AggregationInstance) Tidy()`: `time.Now()` is passed as `t`.
An empty event list returns early; otherwise only events with
`t.Before(e.CreatedAt)` (strictly future-dated) are retained, and if the
retained list is empty the state is set to `aggSent`. -/
def AggregationInstance.Tidy (r : AggregationInstance) (t : Int) :
    AggregationInstance :=
  if r.Events = [] then r
  else
    let events := r.Events.filter fun e => decide (t < e.CreatedAt)
    { r with
      state := if events = [] then aggSent else r.state
      Events := events }

/-- Modelled from the spec: the sink's error classification is not under
`src/`; an error, when non-nil, exposes `Retryable() bool`. -/
inductive SinkResult where
  | success
  | failure (retryable : Bool)
  deriving DecidableEq, Repr

/-- `EventSummary`: the value handed to the sink (owning rule plus the full
current event sequence). -/
structure EventSummary where
  Rule : AggregationRule
  Events : List Event
  deriving DecidableEq, Repr

/-- Modelled from the spec: the notification sink capability
(`Receive(summary) -> error`); a pure function from the summary to the
outcome classification. -/
def SummaryReceiver := EventSummary → SinkResult

/-- `func (r *AggregationInstance) SendNotification(s SummaryReceiver)`:
no-op when already `aggSent`; otherwise the sink receives the summary once.
On success or a non-retryable failure the state becomes `aggSent`; on a
retryable failure it is left unchanged.  The second component records the
summaries passed to the sink by this call (Go performs the call as a side
effect). -/
def AggregationInstance.SendNotification (r : AggregationInstance)
    (s : SummaryReceiver) : AggregationInstance × List EventSummary :=
  if r.state = aggSent then (r, [])
  else
    let summary : EventSummary := { Rule := r.Rule, Events := r.Events }
    match s summary with
    | SinkResult.failure true => (r, [summary])
    | SinkResult.failure false => ({ r with state := aggSent }, [summary])
    | SinkResult.success => ({ r with state := aggSent }, [summary])

/-- The fingerprint table `map[uint64]*AggregationInstance`, as an
association list. -/
abbrev AggMap := List (Nat × AggregationInstance)

/-- Go map read `a.Aggregates[fp]`. -/
def lookupFp : AggMap → Nat → Option AggregationInstance
  | [], _ => none
  | (k, v) :: rest, fp => if k = fp then some v else lookupFp rest fp

/-- Go map write `a.Aggregates[fp] = aggregation`: replaces the entry when
the key is present, appends a new entry otherwise. -/
def insertFp : AggMap → Nat → AggregationInstance → AggMap
  | [], fp, v => [(fp, v)]
  | (k, w) :: rest, fp, v =>
    if k = fp then (fp, v) :: rest else (k, w) :: insertFp rest fp v

/-- `Aggregator`: the rule list and the fingerprint table (the request
channels are part of the dispatch-loop model below). -/
structure Aggregator where
  Rules : List AggregationRule
  Aggregates : AggMap
  deriving DecidableEq, Repr

/-- `func NewAggregator() *Aggregator`: empty table, no rules. -/
def NewAggregator : Aggregator :=
  { Rules := [], Aggregates := [] }

/-- Body of the matched-rule branch inside `aggregate`'s inner loop: look
the fingerprint up, create the instance (`Rule` set to the matching rule,
everything else zero-valued) when absent, then `Ingest` the event and call
`SendNotification`, storing the updated instance under the fingerprint. -/
def applyMatched (r : AggregationRule) (m : AggMap) (e : Event)
    (s : SummaryReceiver) : AggMap × List EventSummary :=
  let fp := e.Fingerprint
  let aggregation :=
    match lookupFp m fp with
    | some i => i
    | none => { Rule := r, Events := [], EndsAt := 0, state := aggUnsent }
  let p := (aggregation.Ingest e).SendNotification s
  (insertFp m fp p.1, p.2)

/-- The inner loop of `aggregate` over the rule list for one event: the
first rule whose `Handles` returns true takes the `applyMatched` branch and
the loop breaks; the remaining rules are never examined. -/
def handleEvent : List AggregationRule → AggMap → Event → SummaryReceiver →
    AggMap × List EventSummary
  | [], m, _, _ => (m, [])
  | r :: rest, m, e, s =>
    if r.Handles e then applyMatched r m e s else handleEvent rest m e s

/-- The outer loop of `aggregate` over the batch, threading the fingerprint
table and accumulating the sink calls in order. -/
def processAll (rules : List AggregationRule) (m : AggMap) :
    List Event → SummaryReceiver → AggMap × List EventSummary
  | [], _ => (m, [])
  | e :: es, s =>
    let p := handleEvent rules m e s
    let q := processAll rules p.1 es s
    (q.1, p.2 ++ q.2)

/-- `func (a *Aggregator) aggregate(req, s)`: with no rules configured the
request fails with the `"No aggregation rules"` error and nothing is
touched; otherwise the batch is processed.  The result carries the updated
aggregator, the error written to the response (`none` on success) and the
sink calls performed. -/
def Aggregator.aggregate (a : Aggregator) (events : List Event)
    (s : SummaryReceiver) : Aggregator × Option String × List EventSummary :=
  match a.Rules with
  | [] => (a, some "No aggregation rules", [])
  | _ :: _ =>
    let p := processAll a.Rules a.Aggregates events s
    ({ a with Aggregates := p.1 }, none, p.2)

/-- `func (a *Aggregator) replaceRules(r)`: the rule list is overwritten
wholesale; nothing else is touched. -/
def Aggregator.replaceRules (a : Aggregator) (rs : List AggregationRule) :
    Aggregator :=
  { a with Rules := rs }

/-- The ticker branch of the dispatch loop: `Tidy` every instance in the
table at the current time `t`. -/
def tickSweep (t : Int) (a : Aggregator) : Aggregator :=
  { a with Aggregates := a.Aggregates.map fun p => (p.1, p.2.Tidy t) }

/-- One message delivered to the dispatch loop's `select`: an ingestion
request, a rule-replacement request, or a ticker tick.  `none` models the
nil pointer a receive yields from a closed channel (`open = false`). -/
inductive DispatchMsg where
  | aggReq : Option (List Event) → DispatchMsg
  | rulesReq : Option (List AggregationRule) → DispatchMsg
  | tick : Int → DispatchMsg

/-- State carried across dispatch-loop iterations: the aggregator and the
`closed` counter (the loop runs while it is below 2). -/
structure LoopState where
  agg : Aggregator
  closedCount : Nat

/-- One iteration of `Dispatch`'s `select`.  The request branches run the
handler before the `!open` check; on a closed channel the received request
is nil and both `aggregate` (which evaluates `req.Response` or `*req`) and
`replaceRules` (which evaluates `len(r.Rules)`) dereference it, so the
iteration panics (`Except.error`) and the `closed++` line is never
reached. -/
def dispatchStep (s : SummaryReceiver) (st : LoopState) :
    DispatchMsg → Except String LoopState
  | DispatchMsg.aggReq none =>
    Except.error "nil pointer dereference in aggregate"
  | DispatchMsg.aggReq (some events) =>
    Except.ok { st with agg := (st.agg.aggregate events s).1 }
  | DispatchMsg.rulesReq none =>
    Except.error "nil pointer dereference in replaceRules"
  | DispatchMsg.rulesReq (some rs) =>
    Except.ok { st with agg := st.agg.replaceRules rs }
  | DispatchMsg.tick t =>
    Except.ok { st with agg := tickSweep t st.agg }

/-- The aggregator states reachable through the dispatch loop's operations,
starting from `NewAggregator`. -/
inductive Reachable : Aggregator → Prop where
  | init : Reachable NewAggregator
  | step_agg {a : Aggregator} (events : List Event) (s : SummaryReceiver) :
      Reachable a → Reachable (a.aggregate events s).1
  | step_rules {a : Aggregator} (rs : List AggregationRule) :
      Reachable a → Reachable (a.replaceRules rs)
  | step_tick {a : Aggregator} (t : Int) :
      Reachable a → Reachable (tickSweep t a)

/-- The dispatch state either stays put or moves from `aggUnsent` to
`aggSent`. -/
def stateMono (s₁ s₂ : aggDispatchState) : Prop :=
  s₁ = s₂ ∨ (s₁ = aggUnsent ∧ s₂ = aggSent)

/-- Every instance of the table with an empty event sequence is `aggSent`. -/
def emptyImpliesSent (a : Aggregator) : Prop :=
  ∀ p ∈ a.Aggregates, p.2.Events = [] → p.2.state = aggSent

/-- The table has at most one entry per fingerprint. -/
def keysNodup (a : Aggregator) : Prop :=
  (a.Aggregates.map Prod.fst).Nodup

/-! ## Association-list lemmas -/

theorem lookupFp_insertFp_self (m : AggMap) (k : Nat) (v : AggregationInstance) :
    lookupFp (insertFp m k v) k = some v := by
  induction m with
  | nil => simp [insertFp, lookupFp]
  | cons p rest ih =>
    obtain ⟨k', w⟩ := p
    by_cases h : k' = k <;> simp [insertFp, lookupFp, h, ih]

theorem insertFp_cons_self (k : Nat) (w v : AggregationInstance)
    (rest : AggMap) : insertFp ((k, w) :: rest) k v = (k, v) :: rest := by
  simp [insertFp]

theorem insertFp_cons_ne (k₀ k : Nat) (w v : AggregationInstance)
    (rest : AggMap) (h : k₀ ≠ k) :
    insertFp ((k₀, w) :: rest) k v = (k₀, w) :: insertFp rest k v := by
  simp [insertFp, h]

theorem lookupFp_insertFp_ne (m : AggMap) (k k' : Nat) (v : AggregationInstance)
    (h : k' ≠ k) : lookupFp (insertFp m k v) k' = lookupFp m k' := by
  induction m with
  | nil => simp [insertFp, lookupFp, Ne.symm h]
  | cons p rest ih =>
    obtain ⟨k₀, w⟩ := p
    by_cases h₀ : k₀ = k
    · subst h₀
      rw [insertFp_cons_self]
      simp [lookupFp, Ne.symm h]
    · rw [insertFp_cons_ne _ _ _ _ _ h₀]
      simp [lookupFp, ih]

theorem mem_keys_insertFp (m : AggMap) (k : Nat) (v : AggregationInstance)
    (x : Nat) (hx : x ∈ (insertFp m k v).map Prod.fst) :
    x ∈ m.map Prod.fst ∨ x = k := by
  induction m with
  | nil => simpa [insertFp] using hx
  | cons p rest ih =>
    obtain ⟨k₀, w⟩ := p
    by_cases h₀ : k₀ = k
    · subst h₀
      rw [insertFp_cons_self] at hx
      simp only [List.map_cons, List.mem_cons] at hx ⊢
      tauto
    · rw [insertFp_cons_ne _ _ _ _ _ h₀] at hx
      simp only [List.map_cons, List.mem_cons] at hx ⊢
      rcases hx with h | h
      · exact Or.inl (Or.inl h)
      · rcases ih h with h' | h'
        · exact Or.inl (Or.inr h')
        · exact Or.inr h'

theorem keys_nodup_insertFp (m : AggMap) (k : Nat) (v : AggregationInstance)
    (h : (m.map Prod.fst).Nodup) : ((insertFp m k v).map Prod.fst).Nodup := by
  induction m with
  | nil => simp [insertFp]
  | cons p rest ih =>
    obtain ⟨k₀, w⟩ := p
    simp only [List.map_cons, List.nodup_cons] at h
    by_cases h₀ : k₀ = k
    · subst h₀
      rw [insertFp_cons_self]
      simpa [List.nodup_cons] using h
    · rw [insertFp_cons_ne _ _ _ _ _ h₀]
      simp only [List.map_cons, List.nodup_cons]
      refine ⟨fun hmem => ?_, ih h.2⟩
      rcases mem_keys_insertFp rest k v k₀ hmem with h' | h'
      · exact h.1 h'
      · exact h₀ h'

theorem mem_insertFp (m : AggMap) (k : Nat) (v : AggregationInstance)
    (p : Nat × AggregationInstance) (hp : p ∈ insertFp m k v) :
    p ∈ m ∨ p = (k, v) := by
  induction m with
  | nil => simpa [insertFp] using hp
  | cons q rest ih =>
    obtain ⟨k₀, w⟩ := q
    by_cases h₀ : k₀ = k
    · subst h₀
      rw [insertFp_cons_self] at hp
      simp only [List.mem_cons] at hp ⊢
      tauto
    · rw [insertFp_cons_ne _ _ _ _ _ h₀] at hp
      simp only [List.mem_cons] at hp ⊢
      rcases hp with h | h
      · exact Or.inl (Or.inl h)
      · rcases ih h with h' | h'
        · exact Or.inl (Or.inr h')
        · exact Or.inr h'

/-! ## State-transition lemmas -/

theorem stateMono_refl (s : aggDispatchState) : stateMono s s :=
  Or.inl rfl

theorem stateMono_of_unsent (s : aggDispatchState) : stateMono aggUnsent s := by
  cases s
  · exact Or.inl rfl
  · exact Or.inr ⟨rfl, rfl⟩

theorem stateMono_to_sent (s : aggDispatchState) : stateMono s aggSent := by
  cases s
  · exact Or.inr ⟨rfl, rfl⟩
  · exact Or.inl rfl

theorem stateMono_trans {s₁ s₂ s₃ : aggDispatchState}
    (h₁ : stateMono s₁ s₂) (h₂ : stateMono s₂ s₃) : stateMono s₁ s₃ := by
  rcases h₁ with h₁ | ⟨h₁, h₁'⟩ <;> rcases h₂ with h₂ | ⟨h₂, h₂'⟩ <;>
    subst_vars <;> first
      | exact Or.inl rfl
      | exact Or.inr ⟨rfl, rfl⟩

/-! ## Frame lemmas for the instance operations -/

theorem ingest_Events (r : AggregationInstance) (e : Event) :
    (r.Ingest e).Events = r.Events ++ [e] := rfl

theorem ingest_state (r : AggregationInstance) (e : Event) :
    (r.Ingest e).state = r.state := rfl

theorem ingest_Rule (r : AggregationInstance) (e : Event) :
    (r.Ingest e).Rule = r.Rule := rfl

theorem sendNotification_eq (r : AggregationInstance) (s : SummaryReceiver) :
    r.SendNotification s =
      if r.state = aggSent then (r, [])
      else
        match s { Rule := r.Rule, Events := r.Events } with
        | SinkResult.failure true => (r, [{ Rule := r.Rule, Events := r.Events }])
        | SinkResult.failure false =>
          ({ r with state := aggSent }, [{ Rule := r.Rule, Events := r.Events }])
        | SinkResult.success =>
          ({ r with state := aggSent }, [{ Rule := r.Rule, Events := r.Events }]) :=
  rfl

theorem sendNotification_of_sent (r : AggregationInstance) (s : SummaryReceiver)
    (h : r.state = aggSent) : r.SendNotification s = (r, []) := by
  rw [sendNotification_eq, if_pos h]

theorem sendNotification_Events (r : AggregationInstance) (s : SummaryReceiver) :
    (r.SendNotification s).1.Events = r.Events := by
  rw [sendNotification_eq]
  by_cases h : r.state = aggSent
  · rw [if_pos h]
  · rw [if_neg h]
    rcases s { Rule := r.Rule, Events := r.Events } with _ | b
    · rfl
    · cases b <;> rfl

theorem sendNotification_Rule (r : AggregationInstance) (s : SummaryReceiver) :
    (r.SendNotification s).1.Rule = r.Rule := by
  rw [sendNotification_eq]
  by_cases h : r.state = aggSent
  · rw [if_pos h]
  · rw [if_neg h]
    rcases s { Rule := r.Rule, Events := r.Events } with _ | b
    · rfl
    · cases b <;> rfl

theorem sendNotification_stateMono (r : AggregationInstance) (s : SummaryReceiver) :
    stateMono r.state (r.SendNotification s).1.state := by
  rw [sendNotification_eq]
  by_cases h : r.state = aggSent
  · rw [if_pos h]
    exact stateMono_refl _
  · rw [if_neg h]
    rcases s { Rule := r.Rule, Events := r.Events } with _ | b
    · exact stateMono_to_sent _
    · cases b
      · exact stateMono_to_sent _
      · exact stateMono_refl _

theorem tidy_Rule (r : AggregationInstance) (t : Int) :
    (r.Tidy t).Rule = r.Rule := by
  unfold AggregationInstance.Tidy
  split <;> rfl

theorem tidy_stateMono (r : AggregationInstance) (t : Int) :
    stateMono r.state (r.Tidy t).state := by
  unfold AggregationInstance.Tidy
  split
  · exact stateMono_refl _
  · simp only
    split
    · exact stateMono_to_sent _
    · exact stateMono_refl _

/-! ## Characterization of the inner rule loop -/

theorem handleEvent_eq_find (rules : List AggregationRule) (m : AggMap)
    (e : Event) (s : SummaryReceiver) :
    handleEvent rules m e s =
      match rules.find? (fun r => r.Handles e) with
      | none => (m, [])
      | some r => applyMatched r m e s := by
  induction rules with
  | nil => rfl
  | cons r rest ih =>
    by_cases h : r.Handles e
    · simp [handleEvent, h, List.find?_cons_of_pos]
    · simp [handleEvent, h, List.find?_cons_of_neg, ih]

theorem handleEvent_of_find_none (rules : List AggregationRule) (m : AggMap)
    (e : Event) (s : SummaryReceiver)
    (hf : rules.find? (fun r => r.Handles e) = none) :
    handleEvent rules m e s = (m, []) := by
  rw [handleEvent_eq_find, hf]

theorem handleEvent_of_find_some (rules : List AggregationRule) (m : AggMap)
    (e : Event) (s : SummaryReceiver) (r : AggregationRule)
    (hf : rules.find? (fun r => r.Handles e) = some r) :
    handleEvent rules m e s = applyMatched r m e s := by
  rw [handleEvent_eq_find, hf]

theorem applyMatched_lookup_self (r : AggregationRule) (m : AggMap) (e : Event)
    (s : SummaryReceiver) :
    lookupFp (applyMatched r m e s).1 e.Fingerprint =
      some (((match lookupFp m e.Fingerprint with
              | some i => i
              | none => { Rule := r, Events := [], EndsAt := 0,
                          state := aggUnsent }).Ingest e).SendNotification s).1 := by
  simp [applyMatched, lookupFp_insertFp_self]

theorem applyMatched_lookup_ne (r : AggregationRule) (m : AggMap) (e : Event)
    (s : SummaryReceiver) (fp : Nat) (h : fp ≠ e.Fingerprint) :
    lookupFp (applyMatched r m e s).1 fp = lookupFp m fp := by
  simp [applyMatched, lookupFp_insertFp_ne _ _ _ _ h]

/-! ## Preservation of existing instances -/

theorem handleEvent_preserve (rules : List AggregationRule) (m : AggMap)
    (e : Event) (s : SummaryReceiver) (fp : Nat) (i : AggregationInstance)
    (h : lookupFp m fp = some i) :
    ∃ i', lookupFp (handleEvent rules m e s).1 fp = some i' ∧
      i'.Rule = i.Rule ∧ stateMono i.state i'.state := by
  rw [handleEvent_eq_find]
  cases hf : rules.find? (fun r => r.Handles e) with
  | none => exact ⟨i, h, rfl, stateMono_refl _⟩
  | some r =>
    by_cases hfp : fp = e.Fingerprint
    · subst hfp
      have hl := applyMatched_lookup_self r m e s
      rw [h] at hl
      refine ⟨_, hl, ?_, ?_⟩
      · rw [sendNotification_Rule, ingest_Rule]
      · have hm := sendNotification_stateMono (i.Ingest e) s
        rwa [ingest_state] at hm
    · refine ⟨i, ?_, rfl, stateMono_refl _⟩
      rw [applyMatched_lookup_ne _ _ _ _ _ hfp, h]

theorem processAll_preserve (rules : List AggregationRule) (events : List Event)
    (m : AggMap) (s : SummaryReceiver) (fp : Nat) (i : AggregationInstance)
    (h : lookupFp m fp = some i) :
    ∃ i', lookupFp (processAll rules m events s).1 fp = some i' ∧
      i'.Rule = i.Rule ∧ stateMono i.state i'.state := by
  induction events generalizing m i with
  | nil => exact ⟨i, h, rfl, stateMono_refl _⟩
  | cons e es ih =>
    obtain ⟨i₁, h₁, hr₁, hs₁⟩ := handleEvent_preserve rules m e s fp i h
    obtain ⟨i₂, h₂, hr₂, hs₂⟩ := ih _ _ h₁
    exact ⟨i₂, by simpa [processAll] using h₂, hr₂.trans hr₁,
      stateMono_trans hs₁ hs₂⟩

theorem aggregate_preserve (a : Aggregator) (events : List Event)
    (s : SummaryReceiver) (fp : Nat) (i : AggregationInstance)
    (h : lookupFp a.Aggregates fp = some i) :
    ∃ i', lookupFp ((a.aggregate events s).1).Aggregates fp = some i' ∧
      i'.Rule = i.Rule ∧ stateMono i.state i'.state := by
  unfold Aggregator.aggregate
  cases hr : a.Rules with
  | nil => exact ⟨i, h, rfl, stateMono_refl _⟩
  | cons r rest =>
    simpa using processAll_preserve (r :: rest) events a.Aggregates s fp i h

/-! ## Key uniqueness is preserved -/

theorem handleEvent_keys_nodup (rules : List AggregationRule) (m : AggMap)
    (e : Event) (s : SummaryReceiver) (h : (m.map Prod.fst).Nodup) :
    (((handleEvent rules m e s).1).map Prod.fst).Nodup := by
  rw [handleEvent_eq_find]
  cases rules.find? (fun r => r.Handles e) with
  | none => exact h
  | some r => simpa [applyMatched] using keys_nodup_insertFp m e.Fingerprint _ h

theorem processAll_keys_nodup (rules : List AggregationRule) (events : List Event)
    (m : AggMap) (s : SummaryReceiver) (h : (m.map Prod.fst).Nodup) :
    (((processAll rules m events s).1).map Prod.fst).Nodup := by
  induction events generalizing m with
  | nil => exact h
  | cons e es ih =>
    simpa [processAll] using ih _ (handleEvent_keys_nodup rules m e s h)

theorem tickSweep_keys (t : Int) (a : Aggregator) :
    (tickSweep t a).Aggregates.map Prod.fst = a.Aggregates.map Prod.fst := by
  simp [tickSweep, List.map_map, Function.comp]

theorem reachable_keysNodup (a : Aggregator) (h : Reachable a) : keysNodup a := by
  induction h with
  | init => simp [keysNodup, NewAggregator]
  | step_agg events s _ ih =>
    unfold keysNodup Aggregator.aggregate
    cases hr : Aggregator.Rules _ with
    | nil => exact ih
    | cons r rest =>
      simpa using processAll_keys_nodup (r :: rest) events _ s ih
  | step_rules rs _ ih => exact ih
  | step_tick t _ ih =>
    unfold keysNodup
    rw [tickSweep_keys]
    exact ih

/-! ## An empty instance is always `aggSent` in reachable states -/

theorem tidy_empty_sent (i : AggregationInstance) (t : Int)
    (h : i.Events = [] → i.state = aggSent) :
    (i.Tidy t).Events = [] → (i.Tidy t).state = aggSent := by
  unfold AggregationInstance.Tidy
  by_cases he : i.Events = []
  · rw [if_pos he]
    intro _
    exact h he
  · rw [if_neg he]
    intro hf
    simp only at hf ⊢
    rw [if_pos hf]

theorem applyMatched_empty_sent (r : AggregationRule) (m : AggMap) (e : Event)
    (s : SummaryReceiver)
    (h : ∀ p ∈ m, p.2.Events = [] → p.2.state = aggSent) :
    ∀ p ∈ (applyMatched r m e s).1, p.2.Events = [] → p.2.state = aggSent := by
  intro p hp
  rcases mem_insertFp _ _ _ p (by simpa [applyMatched] using hp) with hm | hv
  · exact h p hm
  · intro hev
    exfalso
    rw [hv] at hev
    simp only [sendNotification_Events, ingest_Events] at hev
    simp at hev

theorem handleEvent_empty_sent (rules : List AggregationRule) (m : AggMap)
    (e : Event) (s : SummaryReceiver)
    (h : ∀ p ∈ m, p.2.Events = [] → p.2.state = aggSent) :
    ∀ p ∈ (handleEvent rules m e s).1, p.2.Events = [] → p.2.state = aggSent := by
  rw [handleEvent_eq_find]
  cases rules.find? (fun r => r.Handles e) with
  | none => exact h
  | some r => exact applyMatched_empty_sent r m e s h

theorem processAll_empty_sent (rules : List AggregationRule) (events : List Event)
    (m : AggMap) (s : SummaryReceiver)
    (h : ∀ p ∈ m, p.2.Events = [] → p.2.state = aggSent) :
    ∀ p ∈ (processAll rules m events s).1, p.2.Events = [] → p.2.state = aggSent := by
  induction events generalizing m with
  | nil => exact h
  | cons e es ih =>
    intro p hp
    refine ih _ (handleEvent_empty_sent rules m e s h) p ?_
    simpa [processAll] using hp

theorem reachable_emptyImpliesSent (a : Aggregator) (h : Reachable a) :
    emptyImpliesSent a := by
  induction h with
  | init => intro p hp; simp [NewAggregator] at hp
  | step_agg events s _ ih =>
    unfold Aggregator.aggregate
    cases hr : Aggregator.Rules _ with
    | nil => exact ih
    | cons r rest =>
      intro p hp
      exact processAll_empty_sent (r :: rest) events _ s ih p (by simpa using hp)
  | step_rules rs _ ih => exact ih
  | step_tick t _ ih =>
    intro p hp
    simp only [tickSweep, List.mem_map] at hp
    obtain ⟨q, hq, rfl⟩ := hp
    exact tidy_empty_sent q.2 t (ih q hq)

/-! ## Further lookup lemmas -/

theorem mem_keys_of_lookupFp (m : AggMap) (fp : Nat) (i : AggregationInstance)
    (h : lookupFp m fp = some i) : fp ∈ m.map Prod.fst := by
  induction m with
  | nil => simp [lookupFp] at h
  | cons p rest ih =>
    obtain ⟨k, w⟩ := p
    by_cases hk : k = fp
    · subst hk
      simp
    · rw [lookupFp, if_neg hk] at h
      simpa using Or.inr (ih h)

theorem insertFp_keys_of_mem (m : AggMap) (k : Nat) (v : AggregationInstance)
    (h : k ∈ m.map Prod.fst) :
    (insertFp m k v).map Prod.fst = m.map Prod.fst := by
  induction m with
  | nil => simp at h
  | cons p rest ih =>
    obtain ⟨k₀, w⟩ := p
    by_cases h₀ : k₀ = k
    · subst h₀
      rw [insertFp_cons_self]
      simp
    · rw [insertFp_cons_ne _ _ _ _ _ h₀]
      simp only [List.map_cons, List.mem_cons] at h
      have hk : k ∈ rest.map Prod.fst := by
        rcases h with h' | h'
        · exact absurd h'.symm h₀
        · exact h'
      simp [ih hk]

theorem applyMatched_lookup_present (r : AggregationRule) (m : AggMap)
    (e : Event) (s : SummaryReceiver) (i : AggregationInstance)
    (h : lookupFp m e.Fingerprint = some i) :
    lookupFp (applyMatched r m e s).1 e.Fingerprint =
      some ((i.Ingest e).SendNotification s).1 := by
  have hl := applyMatched_lookup_self r m e s
  rw [h] at hl
  exact hl

theorem applyMatched_lookup_absent (r : AggregationRule) (m : AggMap)
    (e : Event) (s : SummaryReceiver)
    (h : lookupFp m e.Fingerprint = none) :
    lookupFp (applyMatched r m e s).1 e.Fingerprint =
      some ((AggregationInstance.Ingest
        { Rule := r, Events := [], EndsAt := 0, state := aggUnsent } e).SendNotification s).1 := by
  have hl := applyMatched_lookup_self r m e s
  rw [h] at hl
  exact hl

theorem handleEvent_prefix_skip (pre rest : List AggregationRule) (m : AggMap)
    (e : Event) (s : SummaryReceiver)
    (hpre : ∀ r' ∈ pre, r'.Handles e = false) :
    handleEvent (pre ++ rest) m e s = handleEvent rest m e s := by
  induction pre with
  | nil => rfl
  | cons r' pre' ih =>
    rw [List.cons_append, handleEvent, if_neg]
    · exact ih fun q hq => hpre q (List.mem_cons_of_mem _ hq)
    · simp [hpre r' (List.mem_cons_self _ _)]

/-! ## Concrete fixtures -/

/-- A rule matching events carrying the attribute `service = db`. -/
def ruleA : AggregationRule :=
  { Filters := [{ Name := "service", Value := "db" }], RepeatRate := 0 }

/-- A rule with no filters: it handles every event. -/
def ruleB : AggregationRule := { Filters := [], RepeatRate := 1 }

def ev1 : Event := { Attributes := [("service", "db")], CreatedAt := 5 }

/-- Same identity attributes as `ev1` (hence the same fingerprint), created
later. -/
def ev2 : Event := { Attributes := [("service", "db")], CreatedAt := 9 }

def evOther : Event := { Attributes := [("service", "web")], CreatedAt := 3 }

def sinkOk : SummaryReceiver := fun _ => SinkResult.success

def sinkRetry : SummaryReceiver := fun _ => SinkResult.failure true

def sinkFatal : SummaryReceiver := fun _ => SinkResult.failure false

/-- An unsent instance with no events (only reachable as `aggSent` through
the loop, but a legal value of the type). -/
def inst0 : AggregationInstance :=
  { Rule := ruleB, Events := [], EndsAt := 0, state := aggUnsent }

/-- An unsent instance holding `ev1`. -/
def inst1 : AggregationInstance :=
  { Rule := ruleA, Events := [ev1], EndsAt := 0, state := aggUnsent }

/-- A sent instance holding `ev1`. -/
def instSent : AggregationInstance :=
  { Rule := ruleA, Events := [ev1], EndsAt := 0, state := aggSent }

/-- An aggregator owning `ruleA` with `inst1` registered under `ev1`'s
fingerprint. -/
def agg1 : Aggregator :=
  { Rules := [ruleA], Aggregates := [(ev1.Fingerprint, inst1)] }

/-! ## Claims -/

/-- Claim C1, counterexample: on an instance whose event sequence is already
empty and whose state is `aggUnsent`, `Tidy` retains the empty set of events
yet does not force the state to `aggSent` (the early return skips the
forcing), contradicting the claim's "regardless of its prior value". -/
theorem C1_tidy_counterexample :
    (inst0.Tidy 0).Events = [] ∧ (inst0.Tidy 0).state ≠ aggSent := by
  decide

/-- Claim C1 (amended): `Tidy` retains exactly the events whose creation
timestamp is strictly after the current time; if a non-empty sequence's
retained set becomes empty the state is forced to `aggSent` regardless of
its prior value; an already-empty sequence returns early with the whole
instance — state included — unchanged. -/
theorem C1_tidy_amended (r : AggregationInstance) (t : Int) :
    (r.Tidy t).Events = r.Events.filter (fun e => decide (t < e.CreatedAt)) ∧
    (r.Events ≠ [] → (r.Tidy t).Events = [] → (r.Tidy t).state = aggSent) ∧
    (r.Events = [] → r.Tidy t = r) := by
  unfold AggregationInstance.Tidy
  by_cases he : r.Events = []
  · rw [if_pos he]
    refine ⟨?_, fun hne => absurd he hne, fun _ => rfl⟩
    rw [he]
    rfl
  · rw [if_neg he]
    refine ⟨rfl, fun _ hf => ?_, fun h0 => absurd h0 he⟩
    simp only at hf ⊢
    rw [if_pos hf]

/-- Claim C1 witness: `inst1` holds one event created at time 5; tidying at
time 10 empties the sequence and forces `aggSent`. -/
theorem C1_tidy_amended_witness :
    inst1.Events ≠ [] ∧ (inst1.Tidy 10).Events = [] ∧
    (inst1.Tidy 10).state = aggSent :=
  ⟨by decide, by decide, (C1_tidy_amended inst1 10).2.1 (by decide) (by decide)⟩

/-- Claim C2: with an empty rule list, `aggregate` answers the
`"No aggregation rules"` error, leaves the aggregator — rule list and the
whole fingerprint table with every instance — unchanged, and performs no
sink call, so no event of the batch is processed. -/
theorem C2_aggregate_no_rules (a : Aggregator) (events : List Event)
    (s : SummaryReceiver) (h : a.Rules = []) :
    a.aggregate events s = (a, some "No aggregation rules", []) := by
  unfold Aggregator.aggregate
  rw [h]

/-- Claim C2 witness. -/
theorem C2_aggregate_no_rules_witness :
    NewAggregator.aggregate [ev1] sinkOk =
      (NewAggregator, some "No aggregation rules", []) :=
  C2_aggregate_no_rules NewAggregator [ev1] sinkOk rfl

/-- Claim C3: the inner loop equals first-match (`find?`) semantics: the
first rule whose `Handles` holds takes the event; the rules after the first
match are never examined (the outcome is independent of them); an event
matched by no rule leaves the table unchanged and performs no sink call. -/
theorem C3_first_match_wins :
    (∀ (rules : List AggregationRule) (m : AggMap) (e : Event)
       (s : SummaryReceiver),
       handleEvent rules m e s =
         match rules.find? (fun r => r.Handles e) with
         | none => (m, [])
         | some r => applyMatched r m e s) ∧
    (∀ (pre suf suf' : List AggregationRule) (r : AggregationRule)
       (m : AggMap) (e : Event) (s : SummaryReceiver),
       (∀ r' ∈ pre, r'.Handles e = false) → r.Handles e = true →
       handleEvent (pre ++ r :: suf) m e s = applyMatched r m e s ∧
       handleEvent (pre ++ r :: suf) m e s = handleEvent (pre ++ r :: suf') m e s) ∧
    (∀ (rules : List AggregationRule) (m : AggMap) (e : Event)
       (s : SummaryReceiver),
       rules.find? (fun r => r.Handles e) = none →
       handleEvent rules m e s = (m, [])) := by
  refine ⟨handleEvent_eq_find, ?_, handleEvent_of_find_none⟩
  intro pre suf suf' r m e s hpre hr
  have key : ∀ tail : List AggregationRule,
      handleEvent (pre ++ r :: tail) m e s = applyMatched r m e s := by
    intro tail
    rw [handleEvent_prefix_skip pre _ m e s hpre, handleEvent, if_pos hr]
  exact ⟨key suf, (key suf).trans (key suf').symm⟩

/-- Claim C3 witness: `ruleA` does not handle `evOther`, `ruleB` does; the
suffix after `ruleB` is irrelevant, and a list with `ruleA` alone matches
nothing for `evOther`. -/
theorem C3_first_match_wins_witness :
    handleEvent ([ruleA] ++ ruleB :: []) [] evOther sinkOk =
      applyMatched ruleB [] evOther sinkOk ∧
    handleEvent ([ruleA] ++ ruleB :: []) [] evOther sinkOk =
      handleEvent ([ruleA] ++ ruleB :: [ruleA]) [] evOther sinkOk ∧
    handleEvent [ruleA] [] evOther sinkOk = ([], []) :=
  ⟨(C3_first_match_wins.2.1 [ruleA] [] [] ruleB [] evOther sinkOk
      (by decide) (by decide)).1,
   (C3_first_match_wins.2.1 [ruleA] [] [ruleA] ruleB [] evOther sinkOk
      (by decide) (by decide)).2,
   C3_first_match_wins.2.2 [ruleA] [] evOther sinkOk (by decide)⟩

/-- Claim C4: the dispatch state is monotone: `Ingest` never touches it,
`Tidy` and `SendNotification` leave it unchanged or move it
`aggUnsent → aggSent`, and so does `aggregate` for every instance present
before and after; once `aggSent`, `SendNotification` performs zero sink
calls, also after further `Ingest` calls. -/
theorem C4_state_monotone :
    (∀ (r : AggregationInstance) (e : Event), (r.Ingest e).state = r.state) ∧
    (∀ (r : AggregationInstance) (t : Int), stateMono r.state ((r.Tidy t).state)) ∧
    (∀ (r : AggregationInstance) (s : SummaryReceiver),
       stateMono r.state ((r.SendNotification s).1.state)) ∧
    (∀ (a : Aggregator) (events : List Event) (s : SummaryReceiver) (fp : Nat)
       (i i' : AggregationInstance),
       lookupFp a.Aggregates fp = some i →
       lookupFp ((a.aggregate events s).1).Aggregates fp = some i' →
       stateMono i.state i'.state) ∧
    (∀ (r : AggregationInstance) (s : SummaryReceiver) (e : Event),
       r.state = aggSent →
       (r.SendNotification s).2 = [] ∧
       ((r.Ingest e).SendNotification s).2 = []) := by
  refine ⟨fun r e => rfl, tidy_stateMono, sendNotification_stateMono, ?_, ?_⟩
  · intro a events s fp i i' hi hi'
    obtain ⟨i'', hi'', _, hm⟩ := aggregate_preserve a events s fp i hi
    have : i'' = i' := by
      have := hi''.symm.trans hi'
      exact Option.some.inj this
    rwa [this] at hm
  · intro r s e h
    constructor
    · rw [sendNotification_of_sent r s h]
    · rw [sendNotification_of_sent (r.Ingest e) s (by rw [ingest_state]; exact h)]

/-- Claim C4 witness: a concrete aggregate step on `agg1` moves `inst1`
from `aggUnsent` to `aggSent`; on the sent instance the sink is called zero
times, also after a further ingest. -/
theorem C4_state_monotone_witness :
    stateMono inst1.state
      ({ Rule := ruleA, Events := [ev1, ev2], EndsAt := 0,
         state := aggSent } : AggregationInstance).state ∧
    (instSent.SendNotification sinkOk).2 = [] ∧
    ((instSent.Ingest ev2).SendNotification sinkOk).2 = [] :=
  ⟨C4_state_monotone.2.2.2.1 agg1 [ev2] sinkOk ev1.Fingerprint inst1
      { Rule := ruleA, Events := [ev1, ev2], EndsAt := 0, state := aggSent }
      (by decide) (by decide),
   (C4_state_monotone.2.2.2.2 instSent sinkOk ev2 rfl).1,
   (C4_state_monotone.2.2.2.2 instSent sinkOk ev2 rfl).2⟩

/-- Claim C5: on an `aggUnsent` instance, `SendNotification` hands the sink
exactly one summary — the owning rule plus the full current event
sequence; success and a non-retryable failure force `aggSent`, a retryable
failure leaves the instance (state included) untouched.  No error is
returned to any caller: the operation's result carries no error component. -/
theorem C5_send_unsent (r : AggregationInstance) (s : SummaryReceiver)
    (h : r.state = aggUnsent) :
    (r.SendNotification s).2 = [{ Rule := r.Rule, Events := r.Events }] ∧
    (s { Rule := r.Rule, Events := r.Events } = SinkResult.success →
      (r.SendNotification s).1 = { r with state := aggSent }) ∧
    (s { Rule := r.Rule, Events := r.Events } = SinkResult.failure true →
      (r.SendNotification s).1 = r) ∧
    (s { Rule := r.Rule, Events := r.Events } = SinkResult.failure false →
      (r.SendNotification s).1 = { r with state := aggSent }) := by
  have hns : ¬ r.state = aggSent := by
    rw [h]
    simp
  rw [sendNotification_eq, if_neg hns]
  rcases hs : s { Rule := r.Rule, Events := r.Events } with _ | b
  · exact ⟨rfl, fun _ => rfl, fun hc => by simp at hc, fun hc => by simp at hc⟩
  · cases b
    · exact ⟨rfl, fun hc => by simp at hc, fun hc => by simp at hc, fun _ => rfl⟩
    · exact ⟨rfl, fun hc => by simp at hc, fun _ => rfl, fun hc => by simp at hc⟩

/-- Claim C5 witness: with the always-retryable sink, `inst1` is summarized
once and left unchanged. -/
theorem C5_send_unsent_witness :
    (inst1.SendNotification sinkRetry).2 =
      [{ Rule := inst1.Rule, Events := inst1.Events }] ∧
    (inst1.SendNotification sinkRetry).1 = inst1 :=
  ⟨(C5_send_unsent inst1 sinkRetry rfl).1,
   (C5_send_unsent inst1 sinkRetry rfl).2.2.1 rfl⟩

/-- Claim C6: reachable tables have at most one instance per fingerprint;
two matched events with equal fingerprints end up appended, in order, to
the same instance's event sequence; and when the fingerprint is already
present no instance is created (the key set is unchanged). -/
theorem C6_same_fingerprint_same_instance :
    (∀ a : Aggregator, Reachable a → keysNodup a) ∧
    (∀ (rules : List AggregationRule) (m : AggMap) (e e' : Event)
       (s : SummaryReceiver) (r r' : AggregationRule),
       rules.find? (fun q => q.Handles e) = some r →
       rules.find? (fun q => q.Handles e') = some r' →
       e'.Fingerprint = e.Fingerprint →
       ∃ i, lookupFp (handleEvent rules (handleEvent rules m e s).1 e' s).1
              e.Fingerprint = some i ∧
         i.Events = (match lookupFp m e.Fingerprint with
                     | some i₀ => i₀.Events
                     | none => []) ++ [e, e']) ∧
    (∀ (rules : List AggregationRule) (m : AggMap) (e : Event)
       (s : SummaryReceiver) (i : AggregationInstance),
       lookupFp m e.Fingerprint = some i →
       ((handleEvent rules m e s).1).map Prod.fst = m.map Prod.fst) := by
  refine ⟨reachable_keysNodup, ?_, ?_⟩
  · intro rules m e e' s r r' hf hf' hfp
    rw [handleEvent_of_find_some _ _ _ _ _ hf, handleEvent_of_find_some _ _ _ _ _ hf']
    cases hl : lookupFp m e.Fingerprint with
    | some i₀ =>
      have h₁ := applyMatched_lookup_present r m e s i₀ hl
      have h₂ := applyMatched_lookup_present r' (applyMatched r m e s).1 e' s _
        (by rw [hfp]; exact h₁)
      refine ⟨_, by rw [← hfp]; exact h₂, ?_⟩
      simp [sendNotification_Events, ingest_Events]
    | none =>
      have h₁ := applyMatched_lookup_absent r m e s hl
      have h₂ := applyMatched_lookup_present r' (applyMatched r m e s).1 e' s _
        (by rw [hfp]; exact h₁)
      refine ⟨_, by rw [← hfp]; exact h₂, ?_⟩
      simp [sendNotification_Events, ingest_Events]
  · intro rules m e s i hl
    rw [handleEvent_eq_find]
    cases rules.find? (fun r => r.Handles e) with
    | none => rfl
    | some r =>
      simpa [applyMatched] using
        insertFp_keys_of_mem m e.Fingerprint _ (mem_keys_of_lookupFp m _ i hl)

/-- Claim C6 witness: `ev1` and `ev2` share their fingerprint; processing
both against `[ruleA]` yields one instance holding `[ev1, ev2]`, and a
second event on a present fingerprint leaves the key set unchanged. -/
theorem C6_same_fingerprint_same_instance_witness :
    keysNodup ((NewAggregator.replaceRules [ruleA]).aggregate [ev1, ev2] sinkOk).1 ∧
    (∃ i, lookupFp (handleEvent [ruleA] (handleEvent [ruleA] [] ev1 sinkRetry).1
            ev2 sinkRetry).1 ev1.Fingerprint = some i ∧
       i.Events = (match lookupFp [] ev1.Fingerprint with
                   | some i₀ => i₀.Events
                   | none => []) ++ [ev1, ev2]) ∧
    ((handleEvent [ruleA] [(ev1.Fingerprint, inst1)] ev2 sinkOk).1).map Prod.fst =
      [(ev1.Fingerprint, inst1)].map Prod.fst :=
  ⟨C6_same_fingerprint_same_instance.1 _
      (Reachable.step_agg [ev1, ev2] sinkOk
        (Reachable.step_rules [ruleA] Reachable.init)),
   C6_same_fingerprint_same_instance.2.1 [ruleA] [] ev1 ev2 sinkRetry ruleA ruleA
      (by decide) (by decide) (by decide),
   C6_same_fingerprint_same_instance.2.2 [ruleA] [(ev1.Fingerprint, inst1)]
      ev2 sinkOk inst1 (by decide)⟩

/-- Claim C7: replacing the rule list overwrites it wholesale and leaves
the fingerprint table — every key and every instance, in particular each
instance's stored rule — untouched. -/
theorem C7_replace_rules (a : Aggregator) (rs : List AggregationRule) :
    (a.replaceRules rs).Rules = rs ∧
    (a.replaceRules rs).Aggregates = a.Aggregates ∧
    (∀ (fp : Nat) (i : AggregationInstance),
       lookupFp a.Aggregates fp = some i →
       lookupFp (a.replaceRules rs).Aggregates fp = some i) :=
  ⟨rfl, rfl, fun _ _ h => h⟩

/-- Claim C7 witness: replacing `agg1`'s rules with `[ruleB]` keeps
`inst1` — with its original rule `ruleA` — under `ev1`'s fingerprint. -/
theorem C7_replace_rules_witness :
    (agg1.replaceRules [ruleB]).Rules = [ruleB] ∧
    (agg1.replaceRules [ruleB]).Aggregates = agg1.Aggregates ∧
    lookupFp (agg1.replaceRules [ruleB]).Aggregates ev1.Fingerprint = some inst1 :=
  ⟨(C7_replace_rules agg1 [ruleB]).1,
   (C7_replace_rules agg1 [ruleB]).2.1,
   (C7_replace_rules agg1 [ruleB]).2.2 ev1.Fingerprint inst1 (by decide)⟩

/-- Claim C8: at the input the claim describes — a receive from a closed
intake channel, which in Go yields a nil request with `open = false` — the
dispatch iteration fails (`Except.error`): the handler runs before the
`!open` check and dereferences the nil request, so the closure is never
counted and completion is never signaled.  This holds for both intake
channels. -/
theorem C8_close_step_panics :
    dispatchStep sinkOk { agg := NewAggregator, closedCount := 0 }
      (DispatchMsg.aggReq none) =
      Except.error "nil pointer dereference in aggregate" ∧
    dispatchStep sinkOk { agg := agg1, closedCount := 1 }
      (DispatchMsg.rulesReq none) =
      Except.error "nil pointer dereference in replaceRules" :=
  ⟨rfl, rfl⟩

/-- Claim C9: an instance's rule is fixed at creation to the first rule
that matched the creating event and is never modified afterwards: not by
`aggregate` (even when a later same-fingerprint event matched a different
rule), nor by `Ingest`, `Tidy`, `SendNotification`, nor by a rule
replacement. -/
theorem C9_rule_set_once :
    (∀ (rules : List AggregationRule) (m : AggMap) (e : Event)
       (s : SummaryReceiver) (r : AggregationRule),
       lookupFp m e.Fingerprint = none →
       rules.find? (fun q => q.Handles e) = some r →
       ∃ i, lookupFp (handleEvent rules m e s).1 e.Fingerprint = some i ∧
         i.Rule = r) ∧
    (∀ (a : Aggregator) (events : List Event) (s : SummaryReceiver) (fp : Nat)
       (i i' : AggregationInstance),
       lookupFp a.Aggregates fp = some i →
       lookupFp ((a.aggregate events s).1).Aggregates fp = some i' →
       i'.Rule = i.Rule) ∧
    (∀ (r : AggregationInstance) (e : Event), (r.Ingest e).Rule = r.Rule) ∧
    (∀ (r : AggregationInstance) (t : Int), (r.Tidy t).Rule = r.Rule) ∧
    (∀ (r : AggregationInstance) (s : SummaryReceiver),
       (r.SendNotification s).1.Rule = r.Rule) ∧
    (∀ (a : Aggregator) (rs : List AggregationRule),
       (a.replaceRules rs).Aggregates = a.Aggregates) := by
  refine ⟨?_, ?_, fun r e => rfl, tidy_Rule, sendNotification_Rule, fun a rs => rfl⟩
  · intro rules m e s r hnone hf
    rw [handleEvent_of_find_some _ _ _ _ _ hf]
    refine ⟨_, applyMatched_lookup_absent r m e s hnone, ?_⟩
    rw [sendNotification_Rule, ingest_Rule]
  · intro a events s fp i i' hi hi'
    obtain ⟨i'', hi'', hr, _⟩ := aggregate_preserve a events s fp i hi
    have : i'' = i' := Option.some.inj (hi''.symm.trans hi')
    rwa [this] at hr

/-- Claim C9 witness: creating an instance for `ev1` stores `ruleA` (the
first matching rule); a later aggregate step on `agg1` — after the rules
were replaced by `[ruleB]`, which also matches — keeps `ruleA`. -/
theorem C9_rule_set_once_witness :
    (∃ i, lookupFp (handleEvent [ruleA] [] ev1 sinkOk).1 ev1.Fingerprint =
        some i ∧ i.Rule = ruleA) ∧
    ({ Rule := ruleA, Events := [ev1, ev2], EndsAt := 0,
       state := aggSent } : AggregationInstance).Rule = inst1.Rule :=
  ⟨C9_rule_set_once.1 [ruleA] [] ev1 sinkOk ruleA (by decide) (by decide),
   C9_rule_set_once.2.1 (agg1.replaceRules [ruleB]) [ev2] sinkOk
     ev1.Fingerprint inst1
     { Rule := ruleA, Events := [ev1, ev2], EndsAt := 0, state := aggSent }
     (by decide) (by decide)⟩

/-- Claim C10: in every aggregator state reachable through the loop's
operations, an instance with an empty event sequence is `aggSent`;
equivalently an `aggUnsent` instance always holds at least one event. -/
theorem C10_empty_implies_sent (a : Aggregator) (h : Reachable a) :
    emptyImpliesSent a :=
  reachable_emptyImpliesSent a h

/-- Claim C10 witness: the invariant holds at a concretely reached state
(one rule installed, one event ingested, then a sweep at a later time,
which empties the instance and marks it `aggSent`). -/
theorem C10_empty_implies_sent_witness :
    emptyImpliesSent
      (tickSweep 10 ((NewAggregator.replaceRules [ruleA]).aggregate
        [ev1] sinkRetry).1) :=
  C10_empty_implies_sent _
    (Reachable.step_tick 10
      (Reachable.step_agg [ev1] sinkRetry
        (Reachable.step_rules [ruleA] Reachable.init)))

end Alertmanager
